import Mathlib

set_option maxRecDepth 8000

/-!
Shallow embedding of the Thor microkernel core: the per-process capability
table (`Universe`), async-id allocation, IPC channels and bi-directional
pipes, IRQ dispatch and the syscall dispatcher, together with proofs about
the properties the kernel is specified to have.

Machine integers are modelled as `Nat` bit patterns with explicit
arithmetic modulo `2 ^ 64`; signed 64-bit values are interpreted through
`asInt64`.
-/

/-- Machine word, 64 bits wide on this target (`Word` in the source). -/
abbrev Word := Nat

/-- Handles are 64-bit unsigned integers (`typedef uint64_t Handle;`). -/
abbrev Handle := Nat

/-- Modulus of 64-bit machine arithmetic. -/
def handleMod : Nat := 2 ^ 64

/-- Error words. The source enum `Error` lists `kErrSuccess = 0`;
`kErrIllegalHandle` is modelled from the spec: the error taxonomy of the
spec names `IllegalHandle` as the error word for a bad handle, which the
source enum does not yet list. -/
inductive Error where
  | kErrSuccess
  | kErrIllegalHandle
deriving DecidableEq

/-- Tagged variant of capability kinds, from the source `AnyDescriptor`
(`kTypeMemoryAccess = 1`, `kTypeBiDirectionFirst = 2`,
`kTypeBiDirectionSecond = 3`); the payloads (shared pointers to the
underlying kernel objects) are abstracted to object identifiers. -/
inductive AnyDescriptor where
  | memoryAccess (memory : Nat)
  | biDirectionFirst (pipe : Nat)
  | biDirectionSecond (pipe : Nat)
deriving DecidableEq

/-- Modelled from the spec: the hashmap `Handle -> AnyDescriptor` used by
`Universe` (`util::Hashmap` / `frigg::Hashmap`, whose implementation is not
among the sources) is modelled as an association list; `mapGet` returns the
entry stored for a key. -/
def mapGet : List (Nat × AnyDescriptor) → Nat → Option AnyDescriptor
  | [], _ => none
  | (k, v) :: rest, h => if h = k then some v else mapGet rest h

/-- Modelled from the spec: hashmap removal deletes the entry stored for a
key. -/
def mapRemove : List (Nat × AnyDescriptor) → Nat → List (Nat × AnyDescriptor)
  | [], _ => []
  | (k, v) :: rest, h => if h = k then rest else (k, v) :: mapRemove rest h

/-- The keys of an association-list map. -/
def mapKeys (m : List (Nat × AnyDescriptor)) : List Nat :=
  m.map Prod.fst

/-- State of a `Universe`: the descriptor map `_descriptorMap` and the
counter `_nextHandle`. -/
structure UniverseState where
  descriptorMap : List (Nat × AnyDescriptor)
  nextHandle : Nat
deriving DecidableEq

/-- The `Universe` constructor initializes `_nextHandle` to `1` and the map
to empty (`Universe::Universe() : _descriptorMap(...), _nextHandle(1)`). -/
def Universe.construct : UniverseState :=
  ⟨[], 1⟩

/-- From the source: `Handle handle = _nextHandle++;` followed by
`_descriptorMap.insert(handle, descriptor); return handle;`. The increment
is 64-bit machine arithmetic, hence taken modulo `2 ^ 64`. -/
def attachDescriptor (s : UniverseState) (descriptor : AnyDescriptor) :
    UniverseState × Nat :=
  let handle := s.nextHandle
  (⟨(handle, descriptor) :: s.descriptorMap, (s.nextHandle + 1) % handleMod⟩, handle)

/-- From the source: `return _descriptorMap.get(handle);` (a null pointer
when the handle is absent). -/
def getDescriptor (s : UniverseState) (handle : Nat) : Option AnyDescriptor :=
  mapGet s.descriptorMap handle

/-- From the source: `return _descriptorMap.remove(handle);`, which removes
the entry and hands back the removed descriptor if there was one. -/
def detachDescriptor (s : UniverseState) (handle : Nat) :
    UniverseState × Option AnyDescriptor :=
  (⟨mapRemove s.descriptorMap handle, s.nextHandle⟩, mapGet s.descriptorMap handle)

/-- Modelled from the spec: `CloseDescriptor(h)` detaches the descriptor and
drops it, returning an error word; the implementation of `helCloseDescriptor`
is not among the sources. A live handle yields `kErrSuccess`, a dead one the
`IllegalHandle` error word. -/
def helCloseDescriptor (s : UniverseState) (handle : Nat) :
    UniverseState × Error :=
  match detachDescriptor s handle with
  | (s', some _) => (s', .kErrSuccess)
  | (s', none) => (s', .kErrIllegalHandle)

/-- Modelled from the spec: a syscall that takes a handle argument resolves
it through the current thread's Universe; an absent handle surfaces as the
`IllegalHandle` error word (the hel syscall bodies are not among the
sources). -/
def resolveHandle (s : UniverseState) (handle : Nat) :
    Except Error AnyDescriptor :=
  match getDescriptor s handle with
  | some d => .ok d
  | none => .error .kErrIllegalHandle

/-- An operation performed on a Universe: attaching a descriptor or
detaching (closing) a handle. -/
inductive UniverseOp where
  | attach (descriptor : AnyDescriptor)
  | detach (handle : Nat)
deriving DecidableEq

/-- The state transition of one Universe operation. -/
def applyOp (s : UniverseState) : UniverseOp → UniverseState
  | .attach d => (attachDescriptor s d).1
  | .detach h => (detachDescriptor s h).1

/-- The Universe state reached after a sequence of operations. -/
def runOps (ops : List UniverseOp) : UniverseState :=
  ops.foldl applyOp Universe.construct

/-- The number of attaches in a sequence of operations. -/
def attachCount : List UniverseOp → Nat
  | [] => 0
  | .attach _ :: rest => attachCount rest + 1
  | .detach _ :: rest => attachCount rest

/-- The handles returned by the attaches of an operation sequence, starting
from state `s`, in order. -/
def issuedAux (s : UniverseState) : List UniverseOp → List Nat
  | [] => []
  | .attach d :: rest => s.nextHandle :: issuedAux (applyOp s (.attach d)) rest
  | .detach h :: rest => issuedAux (applyOp s (.detach h)) rest

/-- The handles returned by the attaches of an operation sequence. -/
def issuedHandles (ops : List UniverseOp) : List Nat :=
  issuedAux Universe.construct ops

/-- The list of `n` consecutive naturals starting at `s`. -/
def rangeFrom : Nat → Nat → List Nat
  | _, 0 => []
  | s, n + 1 => s :: rangeFrom (s + 1) n

/-- One step of the specification-level map: follows the spec's words that
`get(h)` returns the attached descriptor iff `h` is live, by recording, as a
function update, the descriptor of the last attach binding a handle and
erasing it again on detach. Used to compare `getDescriptor` against the
spec's reading. -/
def specStep : (Nat × (Nat → Option AnyDescriptor)) → UniverseOp →
    (Nat × (Nat → Option AnyDescriptor))
  | (n, f), .attach d => ((n + 1) % handleMod, fun k => if k = n then some d else f k)
  | (n, f), .detach h => (n, fun k => if k = h then none else f k)

/-- Specification-level lookup after a sequence of operations: the
descriptor attached under `h`, provided `h` was attached and has not since
been detached, and `none` otherwise. -/
def universeSpecLookup (ops : List UniverseOp) (h : Nat) :
    Option AnyDescriptor :=
  (ops.foldl specStep (1, fun _ => none)).2 h

lemma attachCount_append (l₁ l₂ : List UniverseOp) :
    attachCount (l₁ ++ l₂) = attachCount l₁ + attachCount l₂ := by
  induction l₁ with
  | nil => simp [attachCount]
  | cons op rest ih =>
    cases op with
    | attach d =>
      have hl : attachCount ((UniverseOp.attach d :: rest) ++ l₂)
          = attachCount (rest ++ l₂) + 1 := rfl
      have hr : attachCount (UniverseOp.attach d :: rest) = attachCount rest + 1 := rfl
      rw [hl, hr, ih]
      omega
    | detach h =>
      have hl : attachCount ((UniverseOp.detach h :: rest) ++ l₂)
          = attachCount (rest ++ l₂) := rfl
      have hr : attachCount (UniverseOp.detach h :: rest) = attachCount rest := rfl
      rw [hl, hr, ih]

lemma mapGet_eq_none_of_not_mem {m : List (Nat × AnyDescriptor)} {h : Nat}
    (hm : h ∉ mapKeys m) : mapGet m h = none := by
  induction m with
  | nil => rfl
  | cons e rest ih =>
    obtain ⟨k, v⟩ := e
    simp only [mapKeys, List.map_cons, List.mem_cons] at hm
    push_neg at hm
    simp only [mapGet, if_neg hm.1]
    exact ih (by simpa [mapKeys] using hm.2)

lemma mem_keys_of_mapGet_eq_some {m : List (Nat × AnyDescriptor)} {h : Nat}
    {d : AnyDescriptor} (hg : mapGet m h = some d) : h ∈ mapKeys m := by
  by_contra hmem
  rw [mapGet_eq_none_of_not_mem hmem] at hg
  exact Option.noConfusion hg

lemma mapKeys_remove_sublist (m : List (Nat × AnyDescriptor)) (h : Nat) :
    List.Sublist (mapKeys (mapRemove m h)) (mapKeys m) := by
  induction m with
  | nil => simp [mapRemove, mapKeys]
  | cons e rest ih =>
    obtain ⟨k, v⟩ := e
    by_cases hk : h = k
    · simp only [mapRemove, if_pos hk, mapKeys, List.map_cons]
      exact List.Sublist.cons _ (List.Sublist.refl _)
    · simp only [mapRemove, if_neg hk, mapKeys, List.map_cons]
      exact List.Sublist.cons₂ _ ih

lemma mapGet_remove_self {m : List (Nat × AnyDescriptor)} {h : Nat}
    (hnd : (mapKeys m).Nodup) : mapGet (mapRemove m h) h = none := by
  induction m with
  | nil => rfl
  | cons e rest ih =>
    obtain ⟨k, v⟩ := e
    simp only [mapKeys, List.map_cons, List.nodup_cons] at hnd
    by_cases hk : h = k
    · simp only [mapRemove, if_pos hk]
      apply mapGet_eq_none_of_not_mem
      rw [hk]
      exact fun hc => hnd.1 (by simpa [mapKeys] using hc)
    · simp only [mapRemove, if_neg hk, mapGet, if_neg hk]
      exact ih (by simpa [mapKeys] using hnd.2)

lemma mapGet_remove_ne {m : List (Nat × AnyDescriptor)} {h k : Nat}
    (hk : k ≠ h) : mapGet (mapRemove m h) k = mapGet m k := by
  induction m with
  | nil => rfl
  | cons e rest ih =>
    obtain ⟨k₀, v⟩ := e
    by_cases hh : h = k₀
    · subst hh
      simp [mapRemove, mapGet, if_neg hk]
    · simp only [mapRemove, if_neg hh]
      by_cases hkk : k = k₀
      · simp only [mapGet, if_pos hkk]
      · simp only [mapGet, if_neg hkk]
        exact ih

lemma mem_rangeFrom {k s n : Nat} : k ∈ rangeFrom s n ↔ s ≤ k ∧ k < s + n := by
  induction n generalizing s with
  | zero => simp [rangeFrom]
  | succ n ih =>
    simp only [rangeFrom, List.mem_cons, ih]
    omega

lemma rangeFrom_nodup (s n : Nat) : (rangeFrom s n).Nodup := by
  induction n generalizing s with
  | zero => simp [rangeFrom]
  | succ n ih =>
    refine List.nodup_cons.mpr ⟨fun hc => ?_, ih (s + 1)⟩
    rw [mem_rangeFrom] at hc
    omega

/-- Main invariant of a Universe run from a well-formed start state: the
handle counter advances by exactly the number of attaches (no wraparound
under the stated bound), the issued handles are the consecutive handles
starting at the initial counter, every key of the map is nonzero and below
the counter, the keys stay distinct, and the association-list map agrees
pointwise with the specification-level functional map. -/
lemma universe_run_inv (ops : List UniverseOp) :
    ∀ (s : UniverseState) (f : Nat → Option AnyDescriptor),
      s.nextHandle + attachCount ops < handleMod →
      1 ≤ s.nextHandle →
      (∀ k ∈ mapKeys s.descriptorMap, 1 ≤ k ∧ k < s.nextHandle) →
      (mapKeys s.descriptorMap).Nodup →
      (∀ k, f k = mapGet s.descriptorMap k) →
      (List.foldl applyOp s ops).nextHandle = s.nextHandle + attachCount ops
      ∧ issuedAux s ops = rangeFrom s.nextHandle (attachCount ops)
      ∧ (∀ k ∈ mapKeys (List.foldl applyOp s ops).descriptorMap,
          1 ≤ k ∧ k < s.nextHandle + attachCount ops)
      ∧ (mapKeys (List.foldl applyOp s ops).descriptorMap).Nodup
      ∧ (∀ k, (List.foldl specStep (s.nextHandle, f) ops).2 k
          = mapGet (List.foldl applyOp s ops).descriptorMap k) := by
  induction ops with
  | nil =>
    intro s f hbound h1 hkeys hnd hf
    refine ⟨by simp [attachCount], by simp [attachCount, issuedAux, rangeFrom], ?_, ?_, ?_⟩
    · simpa [attachCount] using hkeys
    · simpa using hnd
    · intro k
      simpa using hf k
  | cons op rest ih =>
    intro s f hbound h1 hkeys hnd hf
    cases op with
    | attach d =>
      have hcnt : attachCount (UniverseOp.attach d :: rest) = attachCount rest + 1 := rfl
      rw [hcnt] at hbound ⊢
      have hmod : (s.nextHandle + 1) % handleMod = s.nextHandle + 1 :=
        Nat.mod_eq_of_lt (by omega)
      have hs' : applyOp s (.attach d)
          = ⟨(s.nextHandle, d) :: s.descriptorMap, s.nextHandle + 1⟩ := by
        simp [applyOp, attachDescriptor, hmod]
      have hspec : specStep (s.nextHandle, f) (.attach d)
          = (s.nextHandle + 1, fun k => if k = s.nextHandle then some d else f k) := by
        simp [specStep, hmod]
      have hb2 : s.nextHandle + 1 + attachCount rest < handleMod := by omega
      have h12 : 1 ≤ s.nextHandle + 1 := by omega
      have hkeys2 : ∀ k ∈ mapKeys ((s.nextHandle, d) :: s.descriptorMap),
          1 ≤ k ∧ k < s.nextHandle + 1 := by
        intro k hk
        simp only [mapKeys, List.map_cons, List.mem_cons] at hk
        rcases hk with hk | hk
        · omega
        · have := hkeys k (by simpa [mapKeys] using hk)
          omega
      have hnd2 : (mapKeys ((s.nextHandle, d) :: s.descriptorMap)).Nodup := by
        simp only [mapKeys, List.map_cons, List.nodup_cons]
        refine ⟨fun hc => ?_, by simpa [mapKeys] using hnd⟩
        have := hkeys s.nextHandle (by simpa [mapKeys] using hc)
        omega
      have hf2 : ∀ k, (if k = s.nextHandle then some d else f k)
          = mapGet ((s.nextHandle, d) :: s.descriptorMap) k := by
        intro k
        simp only [mapGet]
        by_cases hk : k = s.nextHandle
        · simp [hk]
        · simp [hk, hf k]
      have ihs := ih ⟨(s.nextHandle, d) :: s.descriptorMap, s.nextHandle + 1⟩
        (fun k => if k = s.nextHandle then some d else f k)
        hb2 h12 hkeys2 hnd2 hf2
      have hn : (⟨(s.nextHandle, d) :: s.descriptorMap, s.nextHandle + 1⟩ :
          UniverseState).nextHandle = s.nextHandle + 1 := rfl
      rw [List.foldl_cons, hs', List.foldl_cons, hspec]
      refine ⟨?_, ?_, ?_, ihs.2.2.2.1, ihs.2.2.2.2⟩
      · rw [ihs.1, hn]
        omega
      · show s.nextHandle :: issuedAux (applyOp s (.attach d)) rest = _
        rw [hs', ihs.2.1, hn]
        rfl
      · intro k hk
        have h3 := ihs.2.2.1 k hk
        rw [hn] at h3
        omega
    | detach h =>
      have hcnt : attachCount (UniverseOp.detach h :: rest) = attachCount rest := rfl
      rw [hcnt] at hbound ⊢
      have hs' : applyOp s (.detach h)
          = ⟨mapRemove s.descriptorMap h, s.nextHandle⟩ := rfl
      have hspec : specStep (s.nextHandle, f) (.detach h)
          = (s.nextHandle, fun k => if k = h then none else f k) := rfl
      have ihs := ih ⟨mapRemove s.descriptorMap h, s.nextHandle⟩
        (fun k => if k = h then none else f k)
        (by simpa using hbound)
        h1
        (by
          intro k hk
          exact hkeys k ((mapKeys_remove_sublist s.descriptorMap h).subset hk))
        ((mapKeys_remove_sublist s.descriptorMap h).nodup hnd)
        (by
          intro k
          by_cases hk : k = h
          · simp only [if_pos hk, hk]
            exact (mapGet_remove_self hnd).symm
          · simp only [if_neg hk]
            rw [mapGet_remove_ne hk]
            exact hf k)
      rw [List.foldl_cons, hs', List.foldl_cons, hspec]
      refine ⟨ihs.1, ?_, ihs.2.2.1, ihs.2.2.2.1, ihs.2.2.2.2⟩
      show issuedAux (applyOp s (.detach h)) rest = _
      rw [hs', ihs.2.1]

lemma foldl_replicate_attach (d : AnyDescriptor) :
    ∀ (k : Nat) (s : UniverseState), s.nextHandle < handleMod →
      (List.foldl applyOp s (List.replicate k (UniverseOp.attach d))).nextHandle
        = (s.nextHandle + k) % handleMod := by
  intro k
  induction k with
  | zero =>
    intro s hs
    simpa using (Nat.mod_eq_of_lt hs).symm
  | succ n ih =>
    intro s hs
    rw [List.replicate_succ, List.foldl_cons]
    have hstep : (applyOp s (.attach d)).nextHandle
        = (s.nextHandle + 1) % handleMod := rfl
    have hlt : (applyOp s (.attach d)).nextHandle < handleMod := by
      rw [hstep]
      exact Nat.mod_lt _ (by norm_num [handleMod])
    rw [ih _ hlt, hstep, Nat.mod_add_mod]
    congr 1
    omega

/-- C1 fails as literally stated, because `_nextHandle` is a 64-bit machine
integer: along the single sequence of `2 ^ 64 - 1` attaches, extending the
prefix of `2 ^ 64 - 2` attaches by one more attach makes `next_handle` drop
from `2 ^ 64 - 1` to `0` (so it is not strictly monotonic over every finite
sequence), and the very next attach then returns the handle `0`, violating
nonzeroness. -/
theorem universe_handle_counterexample :
    List.replicate (2 ^ 64 - 1) (UniverseOp.attach (.memoryAccess 0))
      = List.replicate (2 ^ 64 - 2) (UniverseOp.attach (.memoryAccess 0))
        ++ [UniverseOp.attach (.memoryAccess 0)]
    ∧ (runOps (List.replicate (2 ^ 64 - 2)
        (UniverseOp.attach (.memoryAccess 0)))).nextHandle = 2 ^ 64 - 1
    ∧ (runOps (List.replicate (2 ^ 64 - 1)
        (UniverseOp.attach (.memoryAccess 0)))).nextHandle = 0
    ∧ (attachDescriptor
        (runOps (List.replicate (2 ^ 64 - 1) (UniverseOp.attach (.memoryAccess 0))))
        (.memoryAccess 0)).2 = 0 := by
  have hform : ∀ k : Nat,
      (runOps (List.replicate k (UniverseOp.attach (.memoryAccess 0)))).nextHandle
        = (1 + k) % handleMod := by
    intro k
    exact foldl_replicate_attach _ k Universe.construct
      (by show (1 : Nat) < handleMod; norm_num [handleMod])
  have hB : (runOps (List.replicate (2 ^ 64 - 1)
      (UniverseOp.attach (.memoryAccess 0)))).nextHandle = 0 := by
    rw [hform]
    have h1 : 1 + (2 ^ 64 - 1) = 2 ^ 64 := by norm_num
    have hM2 : handleMod = 2 ^ 64 := rfl
    rw [h1, hM2]
    exact Nat.mod_self _
  have hsnd : ∀ (s : UniverseState) (d : AnyDescriptor),
      (attachDescriptor s d).2 = s.nextHandle := fun _ _ => rfl
  refine ⟨?_, ?_, hB, by rw [hsnd]; exact hB⟩
  · have h2 : (2 : Nat) ^ 64 - 1 = (2 ^ 64 - 2) + 1 := by norm_num
    rw [h2, List.replicate_succ']
  · rw [hform]
    have h3 : 1 + (2 ^ 64 - 2) = 2 ^ 64 - 1 := by norm_num
    rw [h3]
    exact Nat.mod_eq_of_lt (by norm_num [handleMod])

/-- C1 (amended): for every finite sequence of attach and detach operations
containing at most `2 ^ 64 - 2` attaches (so the 64-bit counter cannot
wrap), `next_handle` after every prefix equals one plus the number of
attaches of that prefix — strictly monotonic, increasing exactly at each
attach — the handles returned by the attaches are the consecutive values
starting at 1, hence nonzero, pairwise distinct and never reissued after a
detach, and `getDescriptor h` agrees with the specification-level lookup:
it returns the descriptor attached under `h` iff `h` was attached and has
not since been detached. -/
theorem universe_handle_invariants (ops : List UniverseOp)
    (hbound : attachCount ops ≤ 2 ^ 64 - 2) :
    (∀ p q : List UniverseOp, ops = p ++ q →
      (runOps p).nextHandle = 1 + attachCount p)
    ∧ issuedHandles ops = rangeFrom 1 (attachCount ops)
    ∧ (∀ h ∈ issuedHandles ops, h ≠ 0)
    ∧ (issuedHandles ops).Nodup
    ∧ (∀ h, getDescriptor (runOps ops) h = universeSpecLookup ops h) := by
  have hinit : ∀ (l : List UniverseOp), attachCount l ≤ 2 ^ 64 - 2 →
      (List.foldl applyOp Universe.construct l).nextHandle = 1 + attachCount l
      ∧ issuedAux Universe.construct l = rangeFrom 1 (attachCount l)
      ∧ (∀ k, (List.foldl specStep (1, fun _ => none) l).2 k
          = mapGet (List.foldl applyOp Universe.construct l).descriptorMap k) := by
    intro l hl
    have h := universe_run_inv l Universe.construct (fun _ => none)
      (by
        show 1 + attachCount l < handleMod
        have hM : handleMod = 18446744073709551616 := by norm_num [handleMod]
        omega)
      (Nat.le_refl 1)
      (by intro k hk; simp [Universe.construct, mapKeys] at hk)
      (by simp [Universe.construct, mapKeys])
      (fun k => rfl)
    exact ⟨h.1, h.2.1, h.2.2.2.2⟩
  refine ⟨?_, (hinit ops hbound).2.1, ?_, ?_, ?_⟩
  · intro p q hpq
    have hc : attachCount ops = attachCount p + attachCount q := by
      rw [hpq, attachCount_append]
    exact (hinit p (by omega)).1
  · intro h hh
    have he : issuedHandles ops = rangeFrom 1 (attachCount ops) :=
      (hinit ops hbound).2.1
    rw [he] at hh
    have := mem_rangeFrom.mp hh
    omega
  · have he : issuedHandles ops = rangeFrom 1 (attachCount ops) :=
      (hinit ops hbound).2.1
    rw [he]
    exact rangeFrom_nodup 1 (attachCount ops)
  · intro h
    exact ((hinit ops hbound).2.2 h).symm

theorem universe_handle_invariants_witness :
    attachCount [UniverseOp.attach (.memoryAccess 0), UniverseOp.detach 1,
        UniverseOp.attach (.memoryAccess 5)] ≤ 2 ^ 64 - 2
    ∧ issuedHandles [UniverseOp.attach (.memoryAccess 0), UniverseOp.detach 1,
        UniverseOp.attach (.memoryAccess 5)]
      = rangeFrom 1 (attachCount [UniverseOp.attach (.memoryAccess 0),
          UniverseOp.detach 1, UniverseOp.attach (.memoryAccess 5)])
    ∧ (∀ h, getDescriptor (runOps [UniverseOp.attach (.memoryAccess 0),
        UniverseOp.detach 1, UniverseOp.attach (.memoryAccess 5)]) h
        = universeSpecLookup [UniverseOp.attach (.memoryAccess 0),
            UniverseOp.detach 1, UniverseOp.attach (.memoryAccess 5)] h) :=
  ⟨by decide,
    (universe_handle_invariants _ (by decide)).2.1,
    (universe_handle_invariants _ (by decide)).2.2.2.2⟩

/-- Once a handle is absent from the map and below the current counter, it
stays absent along any continuation whose attaches keep the counter below
the 64-bit wraparound: attaches only insert fresh keys equal to the current
counter, and detaches only remove entries. -/
lemma handle_stays_absent (ops : List UniverseOp) :
    ∀ (s : UniverseState) (h : Nat),
      mapGet s.descriptorMap h = none →
      h < s.nextHandle →
      s.nextHandle + attachCount ops < handleMod →
      (∀ k ∈ mapKeys s.descriptorMap, 1 ≤ k ∧ k < s.nextHandle) →
      (mapKeys s.descriptorMap).Nodup →
      mapGet (List.foldl applyOp s ops).descriptorMap h = none := by
  induction ops with
  | nil =>
    intro s h habs hlt hb hkeys hnd
    simpa using habs
  | cons op rest ih =>
    intro s h habs hlt hb hkeys hnd
    cases op with
    | attach d =>
      have hcnt : attachCount (UniverseOp.attach d :: rest) = attachCount rest + 1 := rfl
      rw [hcnt] at hb
      have hmod : (s.nextHandle + 1) % handleMod = s.nextHandle + 1 :=
        Nat.mod_eq_of_lt (by omega)
      have hs' : applyOp s (.attach d)
          = ⟨(s.nextHandle, d) :: s.descriptorMap, s.nextHandle + 1⟩ := by
        simp [applyOp, attachDescriptor, hmod]
      rw [List.foldl_cons, hs']
      apply ih
      · show mapGet ((s.nextHandle, d) :: s.descriptorMap) h = none
        simp only [mapGet]
        rw [if_neg (by omega)]
        exact habs
      · show h < s.nextHandle + 1
        omega
      · show s.nextHandle + 1 + attachCount rest < handleMod
        omega
      · show ∀ k ∈ mapKeys ((s.nextHandle, d) :: s.descriptorMap),
          1 ≤ k ∧ k < s.nextHandle + 1
        intro k hk
        simp only [mapKeys, List.map_cons, List.mem_cons] at hk
        rcases hk with hk | hk
        · omega
        · have := hkeys k (by simpa [mapKeys] using hk)
          omega
      · show (mapKeys ((s.nextHandle, d) :: s.descriptorMap)).Nodup
        simp only [mapKeys, List.map_cons, List.nodup_cons]
        refine ⟨fun hc => ?_, by simpa [mapKeys] using hnd⟩
        have := hkeys s.nextHandle (by simpa [mapKeys] using hc)
        omega
    | detach h' =>
      have hcnt : attachCount (UniverseOp.detach h' :: rest) = attachCount rest := rfl
      rw [hcnt] at hb
      have hs' : applyOp s (.detach h')
          = ⟨mapRemove s.descriptorMap h', s.nextHandle⟩ := rfl
      rw [List.foldl_cons, hs']
      apply ih
      · show mapGet (mapRemove s.descriptorMap h') h = none
        by_cases hh : h = h'
        · rw [hh]
          exact mapGet_remove_self hnd
        · rw [mapGet_remove_ne (by omega)]
          exact habs
      · show h < s.nextHandle
        exact hlt
      · show s.nextHandle + attachCount rest < handleMod
        omega
      · show ∀ k ∈ mapKeys (mapRemove s.descriptorMap h'), 1 ≤ k ∧ k < s.nextHandle
        intro k hk
        exact hkeys k ((mapKeys_remove_sublist s.descriptorMap h').subset hk)
      · show (mapKeys (mapRemove s.descriptorMap h')).Nodup
        exact (mapKeys_remove_sublist s.descriptorMap h').nodup hnd

lemma resolveHandle_cons_self (m : List (Nat × AnyDescriptor)) (n : Nat)
    (d : AnyDescriptor) (x : Nat) :
    resolveHandle ⟨(x, d) :: m, n⟩ x = Except.ok d := by
  simp [resolveHandle, getDescriptor, mapGet]

/-- C5 fails as literally stated, because handle values are 64-bit machine
integers: after attaching handle 1, closing it successfully, and then
performing `2 ^ 64` further attaches, the counter wraps around and the
handle value 1 is reissued; a subsequent syscall taking handle 1 then
resolves it successfully instead of returning `IllegalHandle`. -/
theorem close_descriptor_counterexample :
    getDescriptor (runOps [UniverseOp.attach (.memoryAccess 7)]) 1
      = some (.memoryAccess 7)
    ∧ (helCloseDescriptor (runOps [UniverseOp.attach (.memoryAccess 7)]) 1).2
      = Error.kErrSuccess
    ∧ resolveHandle
        (runOps (UniverseOp.attach (.memoryAccess 7) :: UniverseOp.detach 1 ::
          List.replicate (2 ^ 64) (UniverseOp.attach (.memoryAccess 7)))) 1
      = Except.ok (.memoryAccess 7) := by
  have hs2 : applyOp (applyOp Universe.construct (UniverseOp.attach (.memoryAccess 7)))
      (UniverseOp.detach 1) = (⟨[], 2⟩ : UniverseState) := by decide
  have hrun : runOps (UniverseOp.attach (.memoryAccess 7) :: UniverseOp.detach 1 ::
      List.replicate (2 ^ 64) (UniverseOp.attach (.memoryAccess 7)))
      = List.foldl applyOp (⟨[], 2⟩ : UniverseState)
          (List.replicate (2 ^ 64) (UniverseOp.attach (.memoryAccess 7))) := by
    show List.foldl applyOp Universe.construct _ = _
    rw [List.foldl_cons, List.foldl_cons, hs2]
  have hnext : (List.foldl applyOp (⟨[], 2⟩ : UniverseState)
      (List.replicate (2 ^ 64 - 1) (UniverseOp.attach (.memoryAccess 7)))).nextHandle
      = 1 := by
    rw [foldl_replicate_attach _ _ _ (by show (2 : Nat) < handleMod; norm_num [handleMod])]
    show (2 + (2 ^ 64 - 1)) % handleMod = 1
    have h2 : 2 + (2 ^ 64 - 1) = 2 ^ 64 + 1 := by norm_num
    have hM2 : handleMod = 2 ^ 64 := rfl
    rw [h2, hM2, Nat.add_mod_left]
    exact Nat.mod_eq_of_lt (by norm_num)
  refine ⟨by decide, by decide, ?_⟩
  rw [hrun]
  have hsucc : (2 : Nat) ^ 64 = (2 ^ 64 - 1) + 1 := by norm_num
  rw [hsucc, List.replicate_succ', List.foldl_append]
  rw [show ∀ (s : UniverseState), List.foldl applyOp s
      [UniverseOp.attach (.memoryAccess 7)] = applyOp s (.attach (.memoryAccess 7))
    from fun _ => rfl]
  rw [show ∀ (s : UniverseState), applyOp s (.attach (.memoryAccess 7))
      = ⟨(s.nextHandle, .memoryAccess 7) :: s.descriptorMap,
          (s.nextHandle + 1) % handleMod⟩ from fun _ => rfl]
  rw [hnext]
  exact resolveHandle_cons_self _ _ _ 1

/-- C5 (amended): after `CloseDescriptor(h)` succeeds for a live handle `h`,
every subsequent syscall that takes `h` as a handle argument returns the
`IllegalHandle` error word, provided the whole operation history contains at
most `2 ^ 64 - 2` attaches, so that the 64-bit handle counter never wraps
and the closed handle value is never reissued. -/
theorem close_descriptor_illegal_handle (t₁ t₂ : List UniverseOp) (h : Nat)
    (d : AnyDescriptor)
    (hlive : getDescriptor (runOps t₁) h = some d)
    (hbound : attachCount (t₁ ++ UniverseOp.detach h :: t₂) ≤ 2 ^ 64 - 2) :
    (helCloseDescriptor (runOps t₁) h).2 = Error.kErrSuccess
    ∧ resolveHandle (runOps (t₁ ++ UniverseOp.detach h :: t₂)) h
        = Except.error Error.kErrIllegalHandle := by
  have hMlit : handleMod = 18446744073709551616 := by norm_num [handleMod]
  have hlit : (2 : Nat) ^ 64 - 2 = 18446744073709551614 := by norm_num
  rw [hlit] at hbound
  have hmap : mapGet (runOps t₁).descriptorMap h = some d := hlive
  have hcounts : attachCount (t₁ ++ UniverseOp.detach h :: t₂)
      = attachCount t₁ + attachCount t₂ := by
    rw [attachCount_append]
    rfl
  have hinv := universe_run_inv t₁ Universe.construct (fun _ => none)
    (by show 1 + attachCount t₁ < handleMod; omega)
    (Nat.le_refl 1)
    (by intro k hk; simp [Universe.construct, mapKeys] at hk)
    (by simp [Universe.construct, mapKeys])
    (fun k => rfl)
  have hnext1 : (runOps t₁).nextHandle = 1 + attachCount t₁ := hinv.1
  have hmem : h ∈ mapKeys (runOps t₁).descriptorMap := mem_keys_of_mapGet_eq_some hmap
  have hhlt0 : h < 1 + attachCount t₁ := (hinv.2.2.1 h hmem).2
  have hhlt : h < (runOps t₁).nextHandle := by
    rw [hnext1]
    exact hhlt0
  have hclose : (helCloseDescriptor (runOps t₁) h).2 = Error.kErrSuccess := by
    rw [helCloseDescriptor, detachDescriptor, hmap]
  refine ⟨hclose, ?_⟩
  have hsplit : runOps (t₁ ++ UniverseOp.detach h :: t₂)
      = List.foldl applyOp
          ⟨mapRemove (runOps t₁).descriptorMap h, (runOps t₁).nextHandle⟩ t₂ := by
    show List.foldl applyOp Universe.construct _ = _
    rw [List.foldl_append, List.foldl_cons]
    rfl
  have habs : mapGet (List.foldl applyOp
      ⟨mapRemove (runOps t₁).descriptorMap h, (runOps t₁).nextHandle⟩
      t₂).descriptorMap h = none := by
    apply handle_stays_absent
    · show mapGet (mapRemove (runOps t₁).descriptorMap h) h = none
      exact mapGet_remove_self hinv.2.2.2.1
    · show h < (runOps t₁).nextHandle
      exact hhlt
    · show (runOps t₁).nextHandle + attachCount t₂ < handleMod
      rw [hnext1]
      omega
    · show ∀ k ∈ mapKeys (mapRemove (runOps t₁).descriptorMap h),
        1 ≤ k ∧ k < (runOps t₁).nextHandle
      intro k hk
      have hx := hinv.2.2.1 k
        ((mapKeys_remove_sublist (runOps t₁).descriptorMap h).subset hk)
      refine ⟨hx.1, ?_⟩
      rw [hnext1]
      exact hx.2
    · show (mapKeys (mapRemove (runOps t₁).descriptorMap h)).Nodup
      exact (mapKeys_remove_sublist (runOps t₁).descriptorMap h).nodup hinv.2.2.2.1
  rw [hsplit, resolveHandle, getDescriptor, habs]

theorem close_descriptor_illegal_handle_witness :
    getDescriptor (runOps [UniverseOp.attach (.memoryAccess 3),
        UniverseOp.attach (.memoryAccess 4)]) 2 = some (.memoryAccess 4)
    ∧ attachCount ([UniverseOp.attach (.memoryAccess 3),
        UniverseOp.attach (.memoryAccess 4)]
          ++ UniverseOp.detach 2 :: [UniverseOp.attach (.memoryAccess 9)])
        ≤ 2 ^ 64 - 2
    ∧ ((helCloseDescriptor (runOps [UniverseOp.attach (.memoryAccess 3),
          UniverseOp.attach (.memoryAccess 4)]) 2).2 = Error.kErrSuccess
      ∧ resolveHandle (runOps ([UniverseOp.attach (.memoryAccess 3),
          UniverseOp.attach (.memoryAccess 4)]
            ++ UniverseOp.detach 2 :: [UniverseOp.attach (.memoryAccess 9)])) 2
          = Except.error Error.kErrIllegalHandle) :=
  ⟨by decide, by decide,
    close_descriptor_illegal_handle _ _ 2 (.memoryAccess 4) (by decide) (by decide)⟩

/-- Interpretation of a 64-bit pattern as a two's-complement signed value
(the value of an `int64_t` with that bit pattern). -/
def asInt64 (pattern : Nat) : Int :=
  if pattern < 2 ^ 63 then (pattern : Int) else (pattern : Int) - 2 ^ 64

/-- From the source: `static int64_t nextAsyncId = 1;` incremented by
`frigg::fetchInc<int64_t>(&nextAsyncId, async_id)` on every call of
`allocAsyncId`; this is the bit pattern of the counter after `k` calls,
with 64-bit wrapping increment. -/
def nextAsyncIdAfter : Nat → Nat
  | 0 => 1
  | k + 1 => (nextAsyncIdAfter k + 1) % handleMod

/-- The bit pattern returned by the `k`-th call (0-indexed) of
`allocAsyncId`: fetch-and-increment hands back the old counter value. -/
def allocAsyncIdCall (k : Nat) : Nat :=
  nextAsyncIdAfter k

/-- The `int64_t` value returned by the `k`-th call of `allocAsyncId`. -/
def allocAsyncIdValue (k : Nat) : Int :=
  asInt64 (allocAsyncIdCall k)

/-- From the source: `SubmitInfo` holds `asyncId`, `submitFunction` and
`submitObject`. -/
structure SubmitInfo where
  asyncId : Int
  submitFunction : Nat
  submitObject : Nat
deriving DecidableEq

/-- From the source: the default constructor `SubmitInfo()` initializes
`asyncId(0), submitFunction(0), submitObject(0)`. -/
def SubmitInfo.defaultInit : SubmitInfo :=
  ⟨0, 0, 0⟩

lemma nextAsyncIdAfter_eq (k : Nat) :
    nextAsyncIdAfter k = (1 + k) % handleMod := by
  induction k with
  | zero =>
    show 1 = (1 + 0) % handleMod
    norm_num [handleMod]
  | succ n ih =>
    show (nextAsyncIdAfter n + 1) % handleMod = (1 + (n + 1)) % handleMod
    rw [ih, Nat.mod_add_mod, Nat.add_assoc]

/-- C4 fails as literally stated, because `nextAsyncId` is a 64-bit signed
machine integer: call number `2 ^ 63 - 2` (0-indexed) returns the largest
int64 value `2 ^ 63 - 1`, and the very next call wraps to the most negative
value `-(2 ^ 63)`, which is smaller than the earlier id — the ids are not
strictly increasing over an unbounded sequence of calls. -/
theorem async_id_wraparound :
    allocAsyncIdValue (2 ^ 63 - 2) = 2 ^ 63 - 1
    ∧ allocAsyncIdValue (2 ^ 63 - 1) = -(2 ^ 63)
    ∧ allocAsyncIdValue (2 ^ 63 - 1) < allocAsyncIdValue (2 ^ 63 - 2) := by
  have hv : ∀ k : Nat, allocAsyncIdValue k = asInt64 ((1 + k) % handleMod) := by
    intro k
    show asInt64 (nextAsyncIdAfter k) = _
    rw [nextAsyncIdAfter_eq]
  have h₁ : allocAsyncIdValue (2 ^ 63 - 2) = 2 ^ 63 - 1 := by
    rw [hv]
    have ha : 1 + (2 ^ 63 - 2) = 2 ^ 63 - 1 := by norm_num
    have hb : (2 ^ 63 - 1) % handleMod = 2 ^ 63 - 1 :=
      Nat.mod_eq_of_lt (by norm_num [handleMod])
    rw [ha, hb, asInt64, if_pos (by norm_num)]
    norm_num
  have h₂ : allocAsyncIdValue (2 ^ 63 - 1) = -(2 ^ 63) := by
    rw [hv]
    have ha : 1 + (2 ^ 63 - 1) = 2 ^ 63 := by norm_num
    have hb : (2 ^ 63) % handleMod = 2 ^ 63 :=
      Nat.mod_eq_of_lt (by norm_num [handleMod])
    rw [ha, hb, asInt64, if_neg (by norm_num)]
    norm_num
  refine ⟨h₁, h₂, ?_⟩
  rw [h₁, h₂]
  norm_num

/-- C4 (amended): within the first `2 ^ 63 - 1` calls of `allocAsyncId` —
before the 64-bit signed counter can overflow — every call returns a value
strictly greater than every value returned by an earlier call, so the ids
issued within that range are unique, strictly increasing, and never
reused. -/
theorem async_id_monotone (j k : Nat) (hjk : j < k) (hk : k ≤ 2 ^ 63 - 2) :
    allocAsyncIdValue j < allocAsyncIdValue k := by
  have p63 : (2 : Nat) ^ 63 = 9223372036854775808 := by norm_num
  have hsmall : ∀ i : Nat, i ≤ 2 ^ 63 - 2 → allocAsyncIdValue i = (1 + i : Int) := by
    intro i hi
    rw [p63] at hi
    show asInt64 (nextAsyncIdAfter i) = _
    have hb : (1 + i) % handleMod = 1 + i := by
      apply Nat.mod_eq_of_lt
      have hM : handleMod = 18446744073709551616 := by norm_num [handleMod]
      omega
    rw [nextAsyncIdAfter_eq, hb, asInt64, if_pos (by omega)]
    push_cast
    ring
  rw [hsmall j (by omega), hsmall k hk]
  omega

theorem async_id_monotone_witness :
    0 < 1 ∧ 1 ≤ 2 ^ 63 - 2 ∧ allocAsyncIdValue 0 < allocAsyncIdValue 1 :=
  ⟨by norm_num, by norm_num, async_id_monotone 0 1 (by norm_num) (by norm_num)⟩

/-- C10 fails as literally stated, because the counter is a 64-bit machine
integer: the call with 0-indexed number `2 ^ 64 - 1` returns the wrapped-to
pattern `0`, colliding with the `asyncId = 0` stored by a
default-constructed `SubmitInfo`. -/
theorem async_id_zero_counterexample :
    allocAsyncIdValue (2 ^ 64 - 1) = 0 ∧ SubmitInfo.defaultInit.asyncId = 0 := by
  constructor
  · show asInt64 (nextAsyncIdAfter (2 ^ 64 - 1)) = 0
    rw [nextAsyncIdAfter_eq]
    have ha : 1 + (2 ^ 64 - 1) = 2 ^ 64 := by norm_num
    have hM2 : handleMod = 2 ^ 64 := rfl
    rw [ha, hM2, Nat.mod_self, asInt64, if_pos (by norm_num)]
    norm_num
  · rfl

/-- C10 (amended): within the first `2 ^ 64 - 1` calls — before the 64-bit
counter can wrap to zero — `allocAsyncId` never returns 0 (the counter
starts at 1 and increments), so the async id 0 stored by a
default-constructed `SubmitInfo` is distinguishable from every id issued to
a real submitted request. -/
theorem async_id_nonzero (k : Nat) (hk : k < 2 ^ 64 - 1) :
    allocAsyncIdValue k ≠ 0 ∧ SubmitInfo.defaultInit.asyncId = 0 := by
  have p64 : (2 : Nat) ^ 64 = 18446744073709551616 := by norm_num
  rw [p64] at hk
  refine ⟨?_, rfl⟩
  show asInt64 (nextAsyncIdAfter k) ≠ 0
  have hb : (1 + k) % handleMod = 1 + k := by
    apply Nat.mod_eq_of_lt
    have hM : handleMod = 18446744073709551616 := by norm_num [handleMod]
    omega
  rw [nextAsyncIdAfter_eq, hb, asInt64]
  have q63 : (2 : Int) ^ 63 = 9223372036854775808 := by norm_num
  have q64 : (2 : Int) ^ 64 = 18446744073709551616 := by norm_num
  split
  · intro hc
    omega
  · rw [q64]
    intro hc
    omega

theorem async_id_nonzero_witness :
    0 < 2 ^ 64 - 1
    ∧ (allocAsyncIdValue 0 ≠ 0 ∧ SubmitInfo.defaultInit.asyncId = 0) :=
  ⟨by norm_num, async_id_nonzero 0 (by norm_num)⟩

/-- A message held in a channel, from the source `Channel::Message` (a
buffer and a length) extended per the spec with the `(msg_request,
msg_seq)` tag pair carried by `SendString`. Bytes are modelled as a list of
byte values. -/
structure Message where
  bytes : List Nat
  msgRequest : Int
  msgSequence : Int
deriving DecidableEq

/-- Modelled from the spec: a pending-receive record queued by
`submit_recv` — the receive buffer capacity, the `(filter_request,
filter_seq)` pair, and the async id of the submission. -/
structure RecvRecord where
  bufferLength : Nat
  filterRequest : Int
  filterSequence : Int
  asyncId : Int
deriving DecidableEq

/-- A completion event posted to the receiver's event hub: the async id of
the receive, the delivered bytes (the payload truncated to the receive
buffer), the message's tag pair, and — for specification purposes — the
matched message record itself. -/
structure Completion where
  asyncId : Int
  delivered : List Nat
  msgRequest : Int
  msgSequence : Int
  message : Message
deriving DecidableEq

/-- Modelled from the spec: a `Channel` holds a FIFO of pending messages
(sent but not matched) and a FIFO of pending receives; completions records
the completion events posted so far, in order. The source declares
`Channel` with a message vector but its method bodies are not among the
sources. -/
structure ChannelState where
  messages : List Message
  recvs : List RecvRecord
  completions : List Completion
deriving DecidableEq

/-- A channel starts empty. -/
def Channel.empty : ChannelState :=
  ⟨[], [], []⟩

/-- Modelled from the spec: a send record matches a receive filter when
both filter values are either the wildcard `-1` or equal to the message's
tag. -/
def matchesFilter (r : RecvRecord) (m : Message) : Bool :=
  ((r.filterRequest == -1) || (r.filterRequest == m.msgRequest))
    && ((r.filterSequence == -1) || (r.filterSequence == m.msgSequence))

/-- Removes the first element satisfying `p` from a list, returning it and
the remainder (FIFO choice among matching entries). -/
def extractFirst {α : Type} (p : α → Bool) : List α → Option (α × List α)
  | [] => none
  | x :: xs =>
    if p x then some (x, xs)
    else
      match extractFirst p xs with
      | some (y, ys) => some (y, x :: ys)
      | none => none

/-- The completion event posted when receive record `r` is matched with
message `m`: the payload is copied into the receiver's buffer (truncated to
its capacity) together with the message's tag pair. -/
def completionFor (r : RecvRecord) (m : Message) : Completion :=
  ⟨r.asyncId, m.bytes.take r.bufferLength, m.msgRequest, m.msgSequence, m⟩

/-- Modelled from the spec: `Channel::sendString(buffer, length)` with tags
`(msg_request, msg_seq)` — if a waiting receive matches (FIFO among
matching), copy the payload to that receiver and post its completion;
otherwise enqueue the message. The payload is the first `length` bytes of
the input buffer. -/
def Channel.sendString (s : ChannelState) (buffer : List Nat) (length : Nat)
    (msgRequest msgSequence : Int) : ChannelState :=
  let m : Message := ⟨buffer.take length, msgRequest, msgSequence⟩
  match extractFirst (fun r => matchesFilter r m) s.recvs with
  | some (r, rest) =>
    { s with recvs := rest, completions := s.completions ++ [completionFor r m] }
  | none => { s with messages := s.messages ++ [m] }

/-- Modelled from the spec: `submit_recv` — if a pending message matches
(FIFO among matching), post the completion immediately; otherwise enqueue
the receive record. -/
def Channel.submitRecvString (s : ChannelState) (r : RecvRecord) : ChannelState :=
  match extractFirst (fun m => matchesFilter r m) s.messages with
  | some (m, rest) =>
    { s with messages := rest, completions := s.completions ++ [completionFor r m] }
  | none => { s with recvs := s.recvs ++ [r] }

/-- One interaction with a channel: a send or a receive submission. -/
inductive ChannelEvent where
  | send (buffer : List Nat) (length : Nat) (msgRequest msgSequence : Int)
  | submitRecv (r : RecvRecord)
deriving DecidableEq

/-- The state transition of one channel event. -/
def channelStep (s : ChannelState) : ChannelEvent → ChannelState
  | .send buf len req seq => Channel.sendString s buf len req seq
  | .submitRecv r => Channel.submitRecvString s r

/-- The channel state after an interleaving of sends and receive
submissions, starting from the empty channel. -/
def runChannel (events : List ChannelEvent) : ChannelState :=
  events.foldl channelStep Channel.empty

/-- The messages sent by an event sequence, in send order. -/
def sentMessages : List ChannelEvent → List Message
  | [] => []
  | .send buf len req seq :: rest => ⟨buf.take len, req, seq⟩ :: sentMessages rest
  | .submitRecv _ :: rest => sentMessages rest

/-- The receive records submitted by an event sequence, in order. -/
def recvRecords : List ChannelEvent → List RecvRecord
  | [] => []
  | .send _ _ _ _ :: rest => recvRecords rest
  | .submitRecv r :: rest => r :: recvRecords rest

lemma extractFirst_nil {α : Type} (p : α → Bool) : extractFirst p ([] : List α) = none :=
  rfl

lemma extractFirst_cons_pos {α : Type} (p : α → Bool) (x : α) (xs : List α)
    (hx : p x = true) : extractFirst p (x :: xs) = some (x, xs) := by
  simp [extractFirst, hx]

/-- Channel run invariant: starting from a state where one of the two
queues is empty and every queued receive matches everything that will be
sent (and every future receive matches everything queued), at most one
queue is nonempty throughout, and the matched messages followed by the
still-queued messages reproduce the start messages followed by the sent
messages, in order. -/
lemma channel_run_inv (events : List ChannelEvent) :
    ∀ (s : ChannelState),
      (∀ r ∈ s.recvs, ∀ m ∈ sentMessages events, matchesFilter r m = true) →
      (∀ r ∈ recvRecords events, ∀ m ∈ s.messages, matchesFilter r m = true) →
      (∀ r ∈ recvRecords events, ∀ m ∈ sentMessages events, matchesFilter r m = true) →
      (s.messages = [] ∨ s.recvs = []) →
      ((events.foldl channelStep s).messages = [] ∨
        (events.foldl channelStep s).recvs = [])
      ∧ (events.foldl channelStep s).completions.map Completion.message
          ++ (events.foldl channelStep s).messages
        = s.completions.map Completion.message ++ s.messages ++ sentMessages events := by
  induction events with
  | nil =>
    intro s h₁ h₂ h₃ hdisj
    refine ⟨hdisj, ?_⟩
    simp [sentMessages]
  | cons e rest ih =>
    intro s h₁ h₂ h₃ hdisj
    cases e with
    | send buf len req seq =>
      have hm : (⟨buf.take len, req, seq⟩ : Message)
          ∈ sentMessages (ChannelEvent.send buf len req seq :: rest) := by
        simp [sentMessages]
      rcases hdisj with hmsg | hrecv
      · cases hr : s.recvs with
        | nil =>
          have hstep : channelStep s (.send buf len req seq)
              = { s with messages := s.messages ++ [⟨buf.take len, req, seq⟩] } := by
            simp [channelStep, Channel.sendString, hr, extractFirst_nil]
          rw [List.foldl_cons, hstep]
          have := ih { s with messages := s.messages ++ [⟨buf.take len, req, seq⟩] }
            (by
              intro r hrr m hmm
              rw [hr] at hrr
              simp at hrr)
            (by
              intro r hrr m hmm
              simp only [List.mem_append, List.mem_singleton] at hmm
              rcases hmm with hmm | hmm
              · exact h₂ r (by simp [recvRecords, hrr]) m hmm
              · rw [hmm]
                exact h₃ r (by simp [recvRecords, hrr]) _ hm)
            (by
              intro r hrr m hmm
              exact h₃ r (by simp [recvRecords, hrr]) m (by simp [sentMessages, hmm]))
            (Or.inr hr)
          refine ⟨this.1, ?_⟩
          rw [this.2]
          simp [sentMessages, hmsg]
        | cons r₀ rrest =>
          have hmatch : matchesFilter r₀ ⟨buf.take len, req, seq⟩ = true :=
            h₁ r₀ (by rw [hr]; exact List.mem_cons_self r₀ rrest) _ hm
          have hstep : channelStep s (.send buf len req seq)
              = ⟨s.messages, rrest,
                  s.completions ++ [completionFor r₀ ⟨buf.take len, req, seq⟩]⟩ := by
            simp only [channelStep, Channel.sendString, hr,
              extractFirst_cons_pos
                (fun r => matchesFilter r ⟨buf.take len, req, seq⟩) r₀ rrest hmatch]
          rw [List.foldl_cons, hstep]
          have := ih ⟨s.messages, rrest,
              s.completions ++ [completionFor r₀ ⟨buf.take len, req, seq⟩]⟩
            (by
              intro r hrr m hmm
              apply h₁ r
              · rw [hr]
                exact List.mem_cons_of_mem r₀ hrr
              · simp [sentMessages, hmm])
            (by
              intro r hrr m hmm
              simp only [hmsg] at hmm
              simp at hmm)
            (by
              intro r hrr m hmm
              exact h₃ r (by simp [recvRecords, hrr]) m (by simp [sentMessages, hmm]))
            (Or.inl hmsg)
          refine ⟨this.1, ?_⟩
          rw [this.2]
          simp [sentMessages, completionFor, hmsg]
      · have hstep : channelStep s (.send buf len req seq)
            = { s with messages := s.messages ++ [⟨buf.take len, req, seq⟩] } := by
          simp [channelStep, Channel.sendString, hrecv, extractFirst_nil]
        rw [List.foldl_cons, hstep]
        have := ih { s with messages := s.messages ++ [⟨buf.take len, req, seq⟩] }
          (by
            intro r hrr m hmm
            rw [hrecv] at hrr
            simp at hrr)
          (by
            intro r hrr m hmm
            simp only [List.mem_append, List.mem_singleton] at hmm
            rcases hmm with hmm | hmm
            · exact h₂ r (by simp [recvRecords, hrr]) m hmm
            · rw [hmm]
              exact h₃ r (by simp [recvRecords, hrr]) _ hm)
          (by
            intro r hrr m hmm
            exact h₃ r (by simp [recvRecords, hrr]) m (by simp [sentMessages, hmm]))
          (Or.inr hrecv)
        refine ⟨this.1, ?_⟩
        rw [this.2]
        simp [sentMessages]
    | submitRecv r =>
      have hrr0 : r ∈ recvRecords (ChannelEvent.submitRecv r :: rest) := by
        simp [recvRecords]
      cases hm : s.messages with
      | nil =>
        have hstep : channelStep s (.submitRecv r)
            = { s with recvs := s.recvs ++ [r] } := by
          simp [channelStep, Channel.submitRecvString, hm, extractFirst_nil]
        rw [List.foldl_cons, hstep]
        have := ih { s with recvs := s.recvs ++ [r] }
          (by
            intro r' hrr m hmm
            simp only [List.mem_append, List.mem_singleton] at hrr
            rcases hrr with hrr | hrr
            · exact h₁ r' hrr m (by simp [sentMessages, hmm])
            · rw [hrr]
              exact h₃ r hrr0 m (by simp [sentMessages, hmm]))
          (by
            intro r' hrr m hmm
            simp only [hm] at hmm
            simp at hmm)
          (by
            intro r' hrr m hmm
            exact h₃ r' (by simp [recvRecords, hrr]) m (by simp [sentMessages, hmm]))
          (Or.inl hm)
        refine ⟨this.1, ?_⟩
        rw [this.2]
        simp [sentMessages, hm]
      | cons m₀ mrest =>
        have hmatch : matchesFilter r m₀ = true :=
          h₂ r hrr0 m₀ (by rw [hm]; exact List.mem_cons_self m₀ mrest)
        have hstep : channelStep s (.submitRecv r)
            = ⟨mrest, s.recvs, s.completions ++ [completionFor r m₀]⟩ := by
          simp only [channelStep, Channel.submitRecvString, hm,
            extractFirst_cons_pos (fun m => matchesFilter r m) m₀ mrest hmatch]
        rw [List.foldl_cons, hstep]
        have hrecv : s.recvs = [] := by
          rcases hdisj with hd | hd
          · rw [hm] at hd
            exact absurd hd (by simp)
          · exact hd
        have := ih ⟨mrest, s.recvs, s.completions ++ [completionFor r m₀]⟩
          (by
            intro r' hrr m hmm
            rw [hrecv] at hrr
            simp at hrr)
          (by
            intro r' hrr m hmm
            apply h₂ r' (by simp [recvRecords, hrr])
            rw [hm]
            exact List.mem_cons_of_mem m₀ hmm)
          (by
            intro r' hrr m hmm
            exact h₃ r' (by simp [recvRecords, hrr]) m (by simp [sentMessages, hmm]))
          (Or.inr hrecv)
        refine ⟨this.1, ?_⟩
        rw [this.2]
        simp [sentMessages, completionFor, hm]

/-- C2: for every interleaving of sends and receive submissions on a
channel whose tags all match, receives complete in send order — the
messages carried by the completion events, in completion order, are exactly
the first sent messages in send order (the `i`-th completed receive is
matched with the `i`-th message sent). -/
theorem channel_send_order (events : List ChannelEvent)
    (hmatch : ∀ r ∈ recvRecords events, ∀ m ∈ sentMessages events,
      matchesFilter r m = true) :
    (runChannel events).completions.map Completion.message
      = (sentMessages events).take ((runChannel events).completions.length) := by
  show (List.foldl channelStep Channel.empty events).completions.map Completion.message
      = (sentMessages events).take
        ((List.foldl channelStep Channel.empty events).completions.length)
  have hinv := channel_run_inv events Channel.empty
    (by intro r hr m hm; simp [Channel.empty] at hr)
    (by intro r hr m hm; simp [Channel.empty] at hm)
    hmatch
    (Or.inl rfl)
  have h2 : (List.foldl channelStep Channel.empty events).completions.map
        Completion.message
      ++ (List.foldl channelStep Channel.empty events).messages
      = sentMessages events := hinv.2
  have h3 : ((List.foldl channelStep Channel.empty events).completions.map
      Completion.message).length
      = (List.foldl channelStep Channel.empty events).completions.length :=
    List.length_map _ _
  rw [← h2, ← h3, List.take_left]

theorem channel_send_order_witness :
    (∀ r ∈ recvRecords [ChannelEvent.send [1, 2] 2 0 0, ChannelEvent.send [3] 1 0 0,
        ChannelEvent.submitRecv ⟨4, -1, -1, 7⟩, ChannelEvent.submitRecv ⟨4, -1, -1, 8⟩],
      ∀ m ∈ sentMessages [ChannelEvent.send [1, 2] 2 0 0, ChannelEvent.send [3] 1 0 0,
        ChannelEvent.submitRecv ⟨4, -1, -1, 7⟩, ChannelEvent.submitRecv ⟨4, -1, -1, 8⟩],
      matchesFilter r m = true)
    ∧ (runChannel [ChannelEvent.send [1, 2] 2 0 0, ChannelEvent.send [3] 1 0 0,
        ChannelEvent.submitRecv ⟨4, -1, -1, 7⟩,
        ChannelEvent.submitRecv ⟨4, -1, -1, 8⟩]).completions.map Completion.message
      = (sentMessages [ChannelEvent.send [1, 2] 2 0 0, ChannelEvent.send [3] 1 0 0,
          ChannelEvent.submitRecv ⟨4, -1, -1, 7⟩,
          ChannelEvent.submitRecv ⟨4, -1, -1, 8⟩]).take
        ((runChannel [ChannelEvent.send [1, 2] 2 0 0, ChannelEvent.send [3] 1 0 0,
          ChannelEvent.submitRecv ⟨4, -1, -1, 7⟩,
          ChannelEvent.submitRecv ⟨4, -1, -1, 8⟩]).completions.length) :=
  ⟨by decide, channel_send_order _ (by decide)⟩

/-- C3: a `SendString(buf_in, len)` with tags `(msg_request, msg_seq)`
followed by a matching `SubmitRecvString` whose receive buffer holds at
least `len` bytes delivers to the receiver exactly the first `len` bytes of
`buf_in` together with the same tag pair. -/
theorem send_recv_roundtrip (bufIn : List Nat) (len : Nat)
    (msgRequest msgSequence : Int) (r : RecvRecord)
    (hlen : len ≤ bufIn.length) (hcap : len ≤ r.bufferLength)
    (hmatch : matchesFilter r ⟨bufIn.take len, msgRequest, msgSequence⟩ = true) :
    (runChannel [ChannelEvent.send bufIn len msgRequest msgSequence,
        ChannelEvent.submitRecv r]).completions
      = [⟨r.asyncId, bufIn.take len, msgRequest, msgSequence,
          ⟨bufIn.take len, msgRequest, msgSequence⟩⟩]
    ∧ (bufIn.take len).length = len := by
  refine ⟨?_, by rw [List.length_take, Nat.min_eq_left hlen]⟩
  have hs1 : channelStep Channel.empty (.send bufIn len msgRequest msgSequence)
      = ⟨[⟨bufIn.take len, msgRequest, msgSequence⟩], [], []⟩ := by
    simp [channelStep, Channel.sendString, Channel.empty, extractFirst_nil]
  have hs2 : channelStep (⟨[⟨bufIn.take len, msgRequest, msgSequence⟩], [], []⟩ :
      ChannelState) (.submitRecv r)
      = ⟨[], [], [completionFor r ⟨bufIn.take len, msgRequest, msgSequence⟩]⟩ := by
    simp only [channelStep, Channel.submitRecvString,
      extractFirst_cons_pos (fun m => matchesFilter r m) _ _ hmatch,
      List.nil_append]
  show (channelStep (channelStep Channel.empty
      (.send bufIn len msgRequest msgSequence)) (.submitRecv r)).completions = _
  rw [hs1, hs2]
  show [completionFor r ⟨bufIn.take len, msgRequest, msgSequence⟩] = _
  rw [completionFor]
  have htake : (bufIn.take len).take r.bufferLength = bufIn.take len := by
    rw [List.take_take, Nat.min_eq_right hcap]
  rw [htake]

theorem send_recv_roundtrip_witness :
    2 ≤ ([10, 20, 30] : List Nat).length
    ∧ 2 ≤ (⟨5, -1, 9, 7⟩ : RecvRecord).bufferLength
    ∧ matchesFilter ⟨5, -1, 9, 7⟩ ⟨([10, 20, 30] : List Nat).take 2, 4, 9⟩ = true
    ∧ ((runChannel [ChannelEvent.send [10, 20, 30] 2 4 9,
        ChannelEvent.submitRecv ⟨5, -1, 9, 7⟩]).completions
      = [⟨7, ([10, 20, 30] : List Nat).take 2, 4, 9,
          ⟨([10, 20, 30] : List Nat).take 2, 4, 9⟩⟩]
      ∧ (([10, 20, 30] : List Nat).take 2).length = 2) :=
  ⟨by decide, by decide, by decide,
    send_recv_roundtrip [10, 20, 30] 2 4 9 ⟨5, -1, 9, 7⟩
      (by decide) (by decide) (by decide)⟩

/-- From the source: `BiDirectionPipe` holds two channels,
`p_firstChannel` and `p_secondChannel`. -/
structure BiDirectionPipeState where
  firstChannel : ChannelState
  secondChannel : ChannelState
deriving DecidableEq

/-- A pipe starts with both channels empty. -/
def BiDirectionPipe.empty : BiDirectionPipeState :=
  ⟨Channel.empty, Channel.empty⟩

/-- From the source comment on `BiDirectionFirstDescriptor` (reads from the
first channel, writes to the second); the method bodies are modelled from
the spec: send goes to the pipe's second channel. -/
def BiDirectionFirstDescriptor.sendString (p : BiDirectionPipeState)
    (buffer : List Nat) (length : Nat) (msgRequest msgSequence : Int) :
    BiDirectionPipeState :=
  ⟨p.firstChannel, Channel.sendString p.secondChannel buffer length msgRequest msgSequence⟩

/-- From the source comment on `BiDirectionFirstDescriptor`; modelled from
the spec: its receive is submitted to the pipe's first channel. -/
def BiDirectionFirstDescriptor.recvString (p : BiDirectionPipeState)
    (r : RecvRecord) : BiDirectionPipeState :=
  ⟨Channel.submitRecvString p.firstChannel r, p.secondChannel⟩

/-- From the source comment on `BiDirectionSecondDescriptor` (reads from
the second channel, writes to the first); modelled from the spec: send goes
to the pipe's first channel. -/
def BiDirectionSecondDescriptor.sendString (p : BiDirectionPipeState)
    (buffer : List Nat) (length : Nat) (msgRequest msgSequence : Int) :
    BiDirectionPipeState :=
  ⟨Channel.sendString p.firstChannel buffer length msgRequest msgSequence, p.secondChannel⟩

/-- From the source comment on `BiDirectionSecondDescriptor`; modelled from
the spec: its receive is submitted to the pipe's second channel. -/
def BiDirectionSecondDescriptor.recvString (p : BiDirectionPipeState)
    (r : RecvRecord) : BiDirectionPipeState :=
  ⟨p.firstChannel, Channel.submitRecvString p.secondChannel r⟩

lemma matchesFilter_wildcard (cap : Nat) (aid : Int) (m : Message) :
    matchesFilter ⟨cap, -1, -1, aid⟩ m = true := by
  simp [matchesFilter]

/-- C6: the First descriptor's send writes to the pipe's second channel and
its recv reads from the first channel, while the Second descriptor sends to
the first channel and receives from the second; consequently a message sent
through the First endpoint of a fresh pipe completes only a receive
submitted through the Second endpoint (a wildcard receive through the First
endpoint completes nothing), and symmetrically for the Second endpoint. -/
theorem bidirection_pipe_asymmetry (p : BiDirectionPipeState) (buf : List Nat)
    (len : Nat) (req seq : Int) (r : RecvRecord) (cap : Nat) (aid : Int) :
    (BiDirectionFirstDescriptor.sendString p buf len req seq).secondChannel
        = Channel.sendString p.secondChannel buf len req seq
    ∧ (BiDirectionFirstDescriptor.sendString p buf len req seq).firstChannel
        = p.firstChannel
    ∧ (BiDirectionFirstDescriptor.recvString p r).firstChannel
        = Channel.submitRecvString p.firstChannel r
    ∧ (BiDirectionFirstDescriptor.recvString p r).secondChannel = p.secondChannel
    ∧ (BiDirectionSecondDescriptor.sendString p buf len req seq).firstChannel
        = Channel.sendString p.firstChannel buf len req seq
    ∧ (BiDirectionSecondDescriptor.sendString p buf len req seq).secondChannel
        = p.secondChannel
    ∧ (BiDirectionSecondDescriptor.recvString p r).secondChannel
        = Channel.submitRecvString p.secondChannel r
    ∧ (BiDirectionSecondDescriptor.recvString p r).firstChannel = p.firstChannel
    ∧ (BiDirectionFirstDescriptor.recvString
        (BiDirectionFirstDescriptor.sendString BiDirectionPipe.empty buf len req seq)
        ⟨cap, -1, -1, aid⟩).firstChannel.completions = []
    ∧ (BiDirectionSecondDescriptor.recvString
        (BiDirectionFirstDescriptor.sendString BiDirectionPipe.empty buf len req seq)
        ⟨cap, -1, -1, aid⟩).secondChannel.completions.map Completion.message
      = [⟨buf.take len, req, seq⟩]
    ∧ (BiDirectionSecondDescriptor.recvString
        (BiDirectionSecondDescriptor.sendString BiDirectionPipe.empty buf len req seq)
        ⟨cap, -1, -1, aid⟩).secondChannel.completions = []
    ∧ (BiDirectionFirstDescriptor.recvString
        (BiDirectionSecondDescriptor.sendString BiDirectionPipe.empty buf len req seq)
        ⟨cap, -1, -1, aid⟩).firstChannel.completions.map Completion.message
      = [⟨buf.take len, req, seq⟩] := by
  refine ⟨rfl, rfl, rfl, rfl, rfl, rfl, rfl, rfl, ?_, ?_, ?_, ?_⟩
  · show (Channel.submitRecvString Channel.empty ⟨cap, -1, -1, aid⟩).completions = []
    simp [Channel.submitRecvString, Channel.empty, extractFirst_nil]
  · show (Channel.submitRecvString
        (Channel.sendString Channel.empty buf len req seq) ⟨cap, -1, -1, aid⟩
        ).completions.map Completion.message = _
    have hsend : Channel.sendString Channel.empty buf len req seq
        = ⟨[⟨buf.take len, req, seq⟩], [], []⟩ := by
      simp [Channel.sendString, Channel.empty, extractFirst_nil]
    rw [hsend]
    have hrecv : Channel.submitRecvString
        (⟨[⟨buf.take len, req, seq⟩], [], []⟩ : ChannelState) ⟨cap, -1, -1, aid⟩
        = ⟨[], [], [completionFor ⟨cap, -1, -1, aid⟩ ⟨buf.take len, req, seq⟩]⟩ := by
      simp only [Channel.submitRecvString,
        extractFirst_cons_pos (fun m => matchesFilter ⟨cap, -1, -1, aid⟩ m) _ _
          (matchesFilter_wildcard cap aid _),
        List.nil_append]
    rw [hrecv]
    rfl
  · show (Channel.submitRecvString Channel.empty ⟨cap, -1, -1, aid⟩).completions = []
    simp [Channel.submitRecvString, Channel.empty, extractFirst_nil]
  · show (Channel.submitRecvString
        (Channel.sendString Channel.empty buf len req seq) ⟨cap, -1, -1, aid⟩
        ).completions.map Completion.message = _
    have hsend : Channel.sendString Channel.empty buf len req seq
        = ⟨[⟨buf.take len, req, seq⟩], [], []⟩ := by
      simp [Channel.sendString, Channel.empty, extractFirst_nil]
    rw [hsend]
    have hrecv : Channel.submitRecvString
        (⟨[⟨buf.take len, req, seq⟩], [], []⟩ : ChannelState) ⟨cap, -1, -1, aid⟩
        = ⟨[], [], [completionFor ⟨cap, -1, -1, aid⟩ ⟨buf.take len, req, seq⟩]⟩ := by
      simp only [Channel.submitRecvString,
        extractFirst_cons_pos (fun m => matchesFilter ⟨cap, -1, -1, aid⟩ m) _ _
          (matchesFilter_wildcard cap aid _),
        List.nil_append]
    rw [hrecv]
    rfl

/-- Thread states from the spec's thread state machine. -/
inductive ThreadState where
  | ready
  | running
  | blocked
  | exited
deriving DecidableEq

/-- A schedulable thread, abstracted to an identifier and its state. -/
structure ThreadModel where
  tid : Nat
  state : ThreadState
deriving DecidableEq

/-- Scheduler state: the currently Running thread (if any) and the global
FIFO ready queue (`scheduleQueue` in the source). -/
structure SchedState where
  current : Option ThreadModel
  queue : List ThreadModel
deriving DecidableEq

/-- Modelled from the spec: `schedule()` on the preemption path — the
previously Running thread is placed back onto the ready queue in state
Ready before the next head is picked and made Running; with an empty queue
the kernel idles until a wake-up (modelled as having no current thread
while the queue is empty, which cannot occur here since the preempted
thread was just requeued). The body of `schedule()` is not among the
sources. -/
def schedule (s : SchedState) : SchedState :=
  let q : List ThreadModel :=
    match s.current with
    | some th => s.queue ++ [{ th with state := .ready }]
    | none => s.queue
  match q with
  | [] => ⟨none, []⟩
  | th :: rest => ⟨some { th with state := .running }, rest⟩

/-- How an interrupt entry leaves the kernel: by entering the scheduler or
by a full return to the interrupted context. -/
inductive IrqExit where
  | enteredSchedule
  | fullReturn
deriving DecidableEq

/-- The observable outcome of one `thorIrq` entry: which vector was
acknowledged at the controller, which per-vector relay fired, how control
leaves, and the scheduler state afterwards. -/
structure IrqOutcome where
  ackedVector : Nat
  firedVector : Nat
  exit : IrqExit
  sched : SchedState
deriving DecidableEq

/-- From the source `thorIrq(int irq)`: acknowledge the controller, fire
the relay of that vector, then `if(irq == 0) schedule(); else
thorRtFullReturn();`. -/
def thorIrq (irq : Nat) (s : SchedState) : IrqOutcome :=
  if irq = 0 then ⟨irq, irq, .enteredSchedule, schedule s⟩
  else ⟨irq, irq, .fullReturn, s⟩

/-- C7: after the acknowledge and the per-vector relay fire, vector 0
enters `schedule()`, which places the previously Running thread at the back
of the ready queue in state Ready before picking the new head (with an
empty queue the preempted thread itself is picked again), while every other
vector performs a full return leaving the scheduler state untouched. -/
theorem irq_dispatch_schedule (irq : Nat) (s : SchedState) (th : ThreadModel)
    (q : List ThreadModel) :
    (thorIrq 0 s).ackedVector = 0
    ∧ (thorIrq 0 s).firedVector = 0
    ∧ (thorIrq 0 s).exit = .enteredSchedule
    ∧ (thorIrq 0 s).sched = schedule s
    ∧ (irq ≠ 0 → (thorIrq irq s).exit = .fullReturn ∧ (thorIrq irq s).sched = s
        ∧ (thorIrq irq s).ackedVector = irq ∧ (thorIrq irq s).firedVector = irq)
    ∧ (schedule ⟨some th, q⟩).current
        = (q ++ [{ th with state := .ready }]).head?.map
            (fun t : ThreadModel => { t with state := .running })
    ∧ (schedule ⟨some th, q⟩).queue = (q ++ [{ th with state := .ready }]).tail
    ∧ (schedule ⟨some th, []⟩).current = some { th with state := .running } := by
  refine ⟨rfl, rfl, rfl, rfl, ?_, ?_, ?_, ?_⟩
  · intro hirq
    simp [thorIrq, hirq]
  · cases q with
    | nil => rfl
    | cons t rest => rfl
  · cases q with
    | nil => rfl
    | cons t rest => rfl
  · rfl

theorem irq_dispatch_schedule_witness :
    (thorIrq 1 ⟨none, []⟩).exit = .fullReturn
    ∧ (thorIrq 1 ⟨none, []⟩).sched = (⟨none, []⟩ : SchedState)
    ∧ (thorIrq 0 ⟨none, []⟩).exit = .enteredSchedule
    ∧ (schedule ⟨some ⟨5, .running⟩, []⟩).current = some ⟨5, .running⟩ :=
  ⟨((irq_dispatch_schedule 1 ⟨none, []⟩ ⟨5, .running⟩ []).2.2.2.2.1 (by decide)).1,
    ((irq_dispatch_schedule 1 ⟨none, []⟩ ⟨5, .running⟩ []).2.2.2.2.1 (by decide)).2.1,
    (irq_dispatch_schedule 1 ⟨none, []⟩ ⟨5, .running⟩ []).2.2.1,
    (irq_dispatch_schedule 1 ⟨none, []⟩ ⟨5, .running⟩ []).2.2.2.2.2.2.2⟩

/-- The hel functions invoked by the syscall dispatcher's case bodies. -/
inductive HelFn where
  | helLog
  | helCloseDescriptorFn
  | helAllocateMemory
  | helMapMemory
  | helMemoryInfo
  | helCreateThread
  | helExitThisThread
  | helCreateEventHub
  | helWaitForEvents
  | helCreateBiDirectionPipe
  | helSendString
  | helSubmitRecvString
  | helCreateServer
  | helSubmitAccept
  | helSubmitConnect
  | helAccessIrq
  | helSubmitWaitForIrq
  | helAccessIo
  | helEnableIo
deriving DecidableEq

/-- A statement of a `thorSyscall` case body: either a call of a hel
function (which returns normally), or one of the control-transfer
statements that never return — a `thorRtReturnSyscallN` trap return with
`N` result words, entering `schedule()`, the `while(true)` loop of the
Panic case, the `ASSERT(!"Illegal syscall")` of the default case, or the
trailing `ASSERT(!"No return at end of thorSyscall()")`. -/
inductive Stmt where
  | callHel (fn : HelFn)
  | returnSyscall (words : Nat)
  | enterSchedule
  | loopForever
  | assertIllegalSyscall
  | assertNoReturn
deriving DecidableEq

/-- The statements that terminate the syscall path: everything except a
normal hel-function call. -/
def isTerminator : Stmt → Bool
  | .callHel _ => false
  | _ => true

/-- Modelled from the spec: the `kHelCall` operation codes of hel.h, whose
numeric values are not among the sources; distinct codes are assigned here
in the source order of the switch. -/
def kHelCallLog : Word := 1

/-- Modelled from the spec: hel.h call code. -/
def kHelCallPanic : Word := 2

/-- Modelled from the spec: hel.h call code. -/
def kHelCallCloseDescriptor : Word := 3

/-- Modelled from the spec: hel.h call code. -/
def kHelCallAllocateMemory : Word := 4

/-- Modelled from the spec: hel.h call code. -/
def kHelCallMapMemory : Word := 5

/-- Modelled from the spec: hel.h call code. -/
def kHelCallMemoryInfo : Word := 6

/-- Modelled from the spec: hel.h call code. -/
def kHelCallCreateThread : Word := 7

/-- Modelled from the spec: hel.h call code. -/
def kHelCallExitThisThread : Word := 8

/-- Modelled from the spec: hel.h call code. -/
def kHelCallCreateEventHub : Word := 9

/-- Modelled from the spec: hel.h call code. -/
def kHelCallWaitForEvents : Word := 10

/-- Modelled from the spec: hel.h call code. -/
def kHelCallCreateBiDirectionPipe : Word := 11

/-- Modelled from the spec: hel.h call code. -/
def kHelCallSendString : Word := 12

/-- Modelled from the spec: hel.h call code. -/
def kHelCallSubmitRecvString : Word := 13

/-- Modelled from the spec: hel.h call code. -/
def kHelCallCreateServer : Word := 14

/-- Modelled from the spec: hel.h call code. -/
def kHelCallSubmitAccept : Word := 15

/-- Modelled from the spec: hel.h call code. -/
def kHelCallSubmitConnect : Word := 16

/-- Modelled from the spec: hel.h call code. -/
def kHelCallAccessIrq : Word := 17

/-- Modelled from the spec: hel.h call code. -/
def kHelCallSubmitWaitForIrq : Word := 18

/-- Modelled from the spec: hel.h call code. -/
def kHelCallAccessIo : Word := 19

/-- Modelled from the spec: hel.h call code. -/
def kHelCallEnableIo : Word := 20

/-- The cases of the `thorSyscall` switch, in source order, each as its
case value and the straight-line statements of its body as they appear in
the source. -/
def syscallCases : List (Word × List Stmt) :=
  [(kHelCallLog, [.callHel .helLog, .returnSyscall 1]),
    (kHelCallPanic, [.callHel .helLog, .loopForever]),
    (kHelCallCloseDescriptor, [.callHel .helCloseDescriptorFn, .returnSyscall 1]),
    (kHelCallAllocateMemory, [.callHel .helAllocateMemory, .returnSyscall 2]),
    (kHelCallMapMemory, [.callHel .helMapMemory, .returnSyscall 2]),
    (kHelCallMemoryInfo, [.callHel .helMemoryInfo, .returnSyscall 2]),
    (kHelCallCreateThread, [.callHel .helCreateThread, .returnSyscall 2]),
    (kHelCallExitThisThread, [.callHel .helExitThisThread, .enterSchedule]),
    (kHelCallCreateEventHub, [.callHel .helCreateEventHub, .returnSyscall 2]),
    (kHelCallWaitForEvents, [.callHel .helWaitForEvents, .returnSyscall 2]),
    (kHelCallCreateBiDirectionPipe,
      [.callHel .helCreateBiDirectionPipe, .returnSyscall 3]),
    (kHelCallSendString, [.callHel .helSendString, .returnSyscall 1]),
    (kHelCallSubmitRecvString, [.callHel .helSubmitRecvString, .returnSyscall 1]),
    (kHelCallCreateServer, [.callHel .helCreateServer, .returnSyscall 3]),
    (kHelCallSubmitAccept, [.callHel .helSubmitAccept, .returnSyscall 1]),
    (kHelCallSubmitConnect, [.callHel .helSubmitConnect, .returnSyscall 1]),
    (kHelCallAccessIrq, [.callHel .helAccessIrq, .returnSyscall 2]),
    (kHelCallSubmitWaitForIrq, [.callHel .helSubmitWaitForIrq, .returnSyscall 1]),
    (kHelCallAccessIo, [.callHel .helAccessIo, .returnSyscall 2]),
    (kHelCallEnableIo, [.callHel .helEnableIo, .returnSyscall 1])]

/-- The statement stream executed for a given index under C switch
semantics without `break`: the body of the matching case followed — were it
ever to fall through — by the bodies of all later cases, the `default`
case's `ASSERT(!"Illegal syscall")`, and the trailing assertion; an index
matching no case runs the default case directly. -/
def switchStream (index : Word) : List Stmt :=
  ((syscallCases.dropWhile (fun c => c.1 != index)).map Prod.snd).flatten
    ++ [Stmt.assertIllegalSyscall, Stmt.assertNoReturn]

/-- The way a `thorSyscall` invocation terminates: the first
control-transfer statement reached in its statement stream. -/
def thorSyscallOutcome (index : Word) : Stmt :=
  ((switchStream index).find? isTerminator).getD .assertNoReturn

/-- The enumerated syscall codes. -/
def helCallCodes : List Word :=
  syscallCases.map Prod.fst

/-- C8: invoking the dispatcher with an index outside the enumerated
operation set reaches the default case's failing assertion — a fatal
outcome — and in particular never performs a trap return handing control
back to the calling thread. -/
theorem syscall_unknown_index_fatal (index : Word) (h : index ∉ helCallCodes) :
    thorSyscallOutcome index = .assertIllegalSyscall
    ∧ ∀ n, thorSyscallOutcome index ≠ .returnSyscall n := by
  have hdrop : syscallCases.dropWhile (fun c => c.1 != index) = [] := by
    rw [List.dropWhile_eq_nil_iff]
    intro c hc
    simp only [bne_iff_ne, ne_eq]
    intro hceq
    exact h (by rw [← hceq]; exact List.mem_map_of_mem Prod.fst hc)
  have hstream : switchStream index = [Stmt.assertIllegalSyscall, Stmt.assertNoReturn] := by
    rw [switchStream, hdrop]
    rfl
  have hout : thorSyscallOutcome index = .assertIllegalSyscall := by
    rw [thorSyscallOutcome, hstream]
    rfl
  exact ⟨hout, fun n => by rw [hout]; exact fun hc => Stmt.noConfusion hc⟩

theorem syscall_unknown_index_fatal_witness :
    (0 : Word) ∉ helCallCodes
    ∧ (thorSyscallOutcome 0 = .assertIllegalSyscall
      ∧ ∀ n, thorSyscallOutcome 0 ≠ .returnSyscall n) :=
  ⟨by decide, syscall_unknown_index_fatal 0 (by decide)⟩

/-- C9: every enumerated case of `thorSyscall` reaches a non-returning
control transfer (a `thorRtReturnSyscallN` trap return, `schedule()`, or
the Panic loop) within its own body: despite the absence of `break`
statements no case falls through into the following case, and neither the
default case's assertion nor the trailing assertion at the end of
`thorSyscall` is reachable for an enumerated index. -/
theorem syscall_cases_terminate :
    (syscallCases.all (fun c =>
      (c.2.find? isTerminator).isSome
        && (thorSyscallOutcome c.1 == (c.2.find? isTerminator).getD .assertNoReturn)
        && !(thorSyscallOutcome c.1 == Stmt.assertIllegalSyscall)
        && !(thorSyscallOutcome c.1 == Stmt.assertNoReturn))) = true := by
  decide
